import Mathlib

/-!
Verification of the content collection and synchronization engine of the
caafw-platform backend, shallowly embedded in Lean 4.

The embedding covers:
- the upsert engine of `backend/app/tasks/collector_tasks.py` (`upsert_items`),
- the retrying transport of `backend/app/collectors/base.py` (`fetch_url`,
  decorated with tenacity `stop_after_attempt(3)` and
  `wait_exponential(multiplier=1, min=2, max=10)`),
- the health classification of `backend/app/api/admin/dashboard.py`
  (`get_source_health`),
- the Celery beat schedule of `backend/app/tasks/celery_app.py`,
- the admin source endpoints of `backend/app/api/admin/sources.py`
  (`reset_source_errors`, `test_source`).

Python dictionaries are embedded as association lists with distinct keys,
SQLAlchemy rows as association lists of column values, and the database
value `NULL` (Python `None`) as `Option.none`.
-/

namespace Caafw

/-- A Python value stored in a record field: `none` models Python `None`
(and SQL `NULL`), `some s` models a proper value. -/
abbrev Val := Option String

/-- A Python dict passed to `upsert_items` (one canonical record), as an
association list from field name to value. Collector `transform` output is
a dict, so its key list has no duplicates; theorems carry that hypothesis
where they need it. -/
abbrev Item := List (String × Val)

/-- Python `d.get(k)` on a dict, returning `None` when the key is absent,
and equally the attribute value of a SQLAlchemy row whose set attributes
are `fields` (an unset nullable column reads as `None`/`NULL`). -/
def getVal : List (String × Val) → String → Val
  | [], _ => none
  | (k1, v) :: rest, k => if k1 = k then v else getVal rest k

/-- A persisted storage row: the column values that have been set. -/
structure Row where
  fields : List (String × Val)
deriving DecidableEq, Repr

/-- Keys of an association list. -/
def keysOf (fs : List (String × Val)) : List String :=
  fs.map Prod.fst

/-- Python `setattr(existing, k, v)`: replace the value of `k` in place, appending
when the key was never set. -/
def setField : List (String × Val) → String → Val → List (String × Val)
  | [], k, v => [(k, v)]
  | (k1, v1) :: rest, k, v =>
      if k1 = k then (k, v) :: rest else (k1, v1) :: setField rest k v

/-- The update branch of `upsert_items`: for every key/value of the new
item, `if hasattr(existing, key) and key != "id": setattr(existing, key,
value)`. `modelFields` is the attribute set of the SQLAlchemy model. -/
def applyUpdates (modelFields : List String)
    (fs : List (String × Val)) : Item → List (String × Val)
  | [] => fs
  | kv :: rest =>
      applyUpdates modelFields
        (if kv.1 ∈ modelFields ∧ kv.1 ≠ "id" then setField fs kv.1 kv.2 else fs)
        rest

/-- The existing row after the update branch ran over every item pair. -/
def updateRow (modelFields : List String) (r : Row) (item : Item) : Row :=
  ⟨applyUpdates modelFields r.fields item⟩

/-- What the loop body of `upsert_items` did with one item. -/
inductive ItemOutcome where
  | inserted
  | updated
  | errored
deriving DecidableEq, Repr

/-- One iteration of the `for item in items` loop of `upsert_items`:
look the item up by `getattr(model, unique_field) == item.get(unique_field)`
(SQL semantics: comparing with `None` compiles to `IS NULL`, so the match
relation is plain `Option` equality); on a unique match run the update
branch; on no match construct `model(**item)` — a `TypeError` for a key
the model does not define — and add it; any exception is caught and the
item skipped (`errored`). `scalar_one_or_none` raises on two or more
matches, which the same `except` catches. -/
def stepRows (modelFields : List String) (uniqueField : String)
    (rows : List Row) (item : Item) : List Row × ItemOutcome :=
  if uniqueField ∈ modelFields then
    let key := getVal item uniqueField
    match rows.filter (fun r => getVal r.fields uniqueField = key) with
    | [] =>
        if ∀ k ∈ keysOf item, k ∈ modelFields then
          (rows ++ [⟨item⟩], .inserted)
        else
          (rows, .errored)
    | [_] =>
        (rows.map (fun r =>
          if getVal r.fields uniqueField = key then
            updateRow modelFields r item
          else r), .updated)
    | _ :: _ :: _ => (rows, .errored)
  else
    (rows, .errored)

/-- The whole loop of `upsert_items`, returning the final storage rows and
the per-item outcomes in order. The session is created with the SQLAlchemy
default `autoflush=True` (the session factory lives in
`backend/app/db/database.py`), so the lookup of a later item sees rows
added for earlier items of the same batch; the spec relies on exactly this
for deterministic last-one-wins dedup. -/
def processItems (modelFields : List String) (uniqueField : String)
    (rows : List Row) : List Item → List Row × List ItemOutcome
  | [] => (rows, [])
  | item :: rest =>
      ((processItems modelFields uniqueField
          (stepRows modelFields uniqueField rows item).1 rest).1,
       (stepRows modelFields uniqueField rows item).2 ::
         (processItems modelFields uniqueField
           (stepRows modelFields uniqueField rows item).1 rest).2)

/-- Number of loop iterations that took the insert branch. -/
def countInserted (os : List ItemOutcome) : Nat :=
  (os.filter (· = .inserted)).length

/-- Number of loop iterations that took the update branch. `upsert_items`
does not return this number (its return value is only the inserted count),
but the branch taken per item is observable behaviour of the loop. -/
def countUpdated (os : List ItemOutcome) : Nat :=
  (os.filter (· = .updated)).length

/-- Number of loop iterations whose exception was caught and skipped. -/
def countErrored (os : List ItemOutcome) : Nat :=
  (os.filter (· = .errored)).length

/-- The function `upsert_items(model, items, unique_field)`: returns the storage after
the batch together with the inserted count, which is all the Python
function returns. An empty batch returns 0 without opening a session. -/
def upsert_items (modelFields : List String) (uniqueField : String)
    (rows : List Row) (items : List Item) : List Row × Nat :=
  let (rows1, os) := processItems modelFields uniqueField rows items
  (rows1, countInserted os)

/-! ## Session and flush model for `upsert_items`

`upsert_items` holds one session and one transaction for the whole batch:
`session.add` only makes a row pending, the row is written at the next
flush — the autoflush triggered by a later iteration's `session.execute`,
or the single `session.commit()` after the loop — and only the commit
makes any of it durable. A row violating a storage constraint therefore
raises outside the try of its own iteration, and an exception at commit
leaves the whole batch unpersisted. -/

/-- State of the single SQLAlchemy session one `upsert_items` call holds:
the rows its queries can see (the table at transaction start plus rows
already flushed in this transaction), the rows added by `session.add` but
not yet flushed, and whether a failed flush has left the session in
rollback-only state. -/
structure UpsertSession where
  rows : List Row
  pending : List Row
  poisoned : Bool
deriving DecidableEq, Repr

/-- Whether flushing a newly inserted row raises an `IntegrityError`:
`requiredFields` are the model's NOT NULL columns without defaults (for
example `name`, `slug` and `source` on `Product`), and an INSERT whose
value for one of them is `NULL` violates the constraint. -/
def rowViolates (requiredFields : List String) (r : Row) : Bool :=
  requiredFields.any (fun k => (getVal r.fields k).isNone)

/-- One iteration of the loop under the session model. `session.execute`
autoflushes the adds of earlier iterations before running the lookup: a
constraint-violating pending row makes that flush raise inside THIS
iteration's `try`, so this record is skipped and the session becomes
rollback-only; once rollback-only, every later `session.execute` raises
`PendingRollbackError`, likewise caught per record. Otherwise the
iteration proceeds exactly as `stepRows`, except that an inserted row
enters the pending set instead of the visible rows. Flushes of updated
rows are modelled as succeeding; under the hypotheses used below every
processed record carries its required columns, so an UPDATE cannot
introduce a NULL into one. -/
def stepSession (mf req : List String) (uf : String)
    (s : UpsertSession) (item : Item) : UpsertSession × ItemOutcome :=
  if uf ∈ mf then
    if s.poisoned then (s, .errored)
    else if s.pending.any (rowViolates req) then
      ({ s with poisoned := true }, .errored)
    else
      let rows := s.rows ++ s.pending
      let key := getVal item uf
      match rows.filter (fun r => getVal r.fields uf = key) with
      | [] =>
          if ∀ k ∈ keysOf item, k ∈ mf then
            (⟨rows, [⟨item⟩], false⟩, .inserted)
          else
            (⟨rows, [], false⟩, .errored)
      | [_] =>
          (⟨rows.map (fun r =>
            if getVal r.fields uf = key then updateRow mf r item else r),
            [], false⟩, .updated)
      | _ :: _ :: _ => (⟨rows, [], false⟩, .errored)
  else (s, .errored)

/-- The whole loop under the session model. -/
def processItemsSession (mf req : List String) (uf : String)
    (s : UpsertSession) : List Item → UpsertSession × List ItemOutcome
  | [] => (s, [])
  | item :: rest =>
      ((processItemsSession mf req uf
          (stepSession mf req uf s item).1 rest).1,
       (stepSession mf req uf s item).2 ::
         (processItemsSession mf req uf
           (stepSession mf req uf s item).1 rest).2)

/-- The single `await session.commit()` after the loop: it raises when
the session is rollback-only or when flushing the remaining adds violates
a constraint; only a successful commit makes the transaction durable. -/
def commitSession (req : List String) (s : UpsertSession) :
    Except Unit (List Row) :=
  if s.poisoned then .error ()
  else if s.pending.any (rowViolates req) then .error ()
  else .ok (s.rows ++ s.pending)

/-- The function `upsert_items` under the session model: the call either
commits, returning the new table and the inserted count, or raises out of
the function (`Except.error`) with the transaction never committed. -/
def upsert_items_session (mf req : List String) (uf : String)
    (db : List Row) (items : List Item) : Except Unit (List Row × Nat) :=
  match commitSession req
      (processItemsSession mf req uf ⟨db, [], false⟩ items).1 with
  | .ok rows =>
      .ok (rows,
        countInserted (processItemsSession mf req uf ⟨db, [], false⟩ items).2)
  | .error _ => .error ()

/-- The table contents after the call: the committed rows on success; the
prior rows when `upsert_items` raised, since the transaction was never
committed. -/
def persistedRows (mf req : List String) (uf : String)
    (db : List Row) (items : List Item) : List Row :=
  match upsert_items_session mf req uf db items with
  | .ok (rows, _) => rows
  | .error _ => db

/-! ## Source health classification (`backend/app/api/admin/dashboard.py`) -/

/-- The per-source status computation inside `get_source_health`, read
straight off the `if`/`elif` chain at lines 268 to 277. Times are in
seconds (`datetime` differences are compared through `total_seconds()`),
`fetch_frequency` is in minutes, hence the `* 60 * 2`. A `None`
`last_fetched_at` is falsy in Python, so the overdue test short-circuits
to the `else`. -/
def get_source_health (is_active : Bool) (error_count : Nat)
    (last_fetched_at : Option Int) (now : Int) (fetch_frequency : Int) :
    String :=
  if !is_active then "inactive"
  else if error_count ≥ 5 then "error"
  else if error_count > 0 then "warning"
  else if (match last_fetched_at with
           | some t => decide (now - t > fetch_frequency * 60 * 2)
           | none => false : Bool) then "warning"
  else "ok"

/-- The health classification as the spec words it: `isActive=false`
gives `inactive` regardless of every other field; otherwise
`errorCount >= 5` gives `error`; otherwise `errorCount` in `[1,4]` or an
elapsed time since the recorded last fetch beyond twice the configured
frequency gives `warning`; otherwise `ok`. Written from the spec text for
comparison against `get_source_health`. -/
def healthSpec (is_active : Bool) (error_count : Nat)
    (last_fetched_at : Option Int) (now : Int) (fetch_frequency : Int) :
    String :=
  if is_active = false then "inactive"
  else if error_count ≥ 5 then "error"
  else if decide (1 ≤ error_count ∧ error_count ≤ 4) ||
          (match last_fetched_at with
           | some t => decide (now - t > 2 * fetch_frequency * 60)
           | none => false : Bool) then "warning"
  else "ok"

/-! ## Fetch client retry (`backend/app/collectors/base.py`) -/

/-- The outcome of one raw HTTP call issued by `httpx`. -/
inductive NetOutcome where
  | resp (status : Nat)
  | timeout
  | connError
deriving DecidableEq, Repr

/-- The error raised out of the body of `fetch_url` on one attempt. -/
inductive FetchErr where
  | httpStatus (code : Nat)
  | requestError
deriving DecidableEq, Repr

/-- One attempt of the body of `fetch_url`: issue the call, then
`response.raise_for_status()`, which raises `httpx.HTTPStatusError` for
every 4xx and 5xx status; timeouts and connection failures raise
`httpx.RequestError`. Both handlers log and re-raise. -/
def attemptOnce : NetOutcome → Except FetchErr Nat
  | .resp status => if 400 ≤ status then .error (.httpStatus status) else .ok status
  | .timeout => .error .requestError
  | .connError => .error .requestError

/-- tenacity `wait_exponential(multiplier, min, max)` evaluated after the
failure of attempt number `attemptNumber` (1-based):
`max(max(0, min), min(multiplier * 2 ** attempt_number, max))`. -/
def waitExponential (multiplier minW maxW attemptNumber : Nat) : Nat :=
  Nat.max minW (Nat.min (multiplier * 2 ^ attemptNumber) maxW)

/-- The tenacity retry loop around `fetch_url`, driven by
`stop_after_attempt(3)`: `remaining` attempts are left, the current one is
attempt number `attempt`. Returns the number of calls made, the wait
intervals slept between calls, and the final result. tenacity retries on
any raised exception by default, so both `RequestError` and 4xx/5xx
`HTTPStatusError` are retried until the attempt budget is spent. -/
def fetchUrlGo (net : Nat → NetOutcome) (attempt : Nat) :
    Nat → Nat × List Nat × Except FetchErr Nat
  | 0 => (0, [], .error .requestError)
  | 1 =>
      match attemptOnce (net attempt) with
      | .ok r => (1, [], .ok r)
      | .error e => (1, [], .error e)
  | remaining + 2 =>
      match attemptOnce (net attempt) with
      | .ok r => (1, [], .ok r)
      | .error _ =>
          let (c, ws, res) := fetchUrlGo net (attempt + 1) (remaining + 1)
          (c + 1, waitExponential 1 2 10 attempt :: ws, res)

/-- The function `fetch_url` under its decorator
`retry(stop=stop_after_attempt(3), wait=wait_exponential(multiplier=1,
min=2, max=10))`, as a function of the network behaviour per attempt. -/
def fetch_url (net : Nat → NetOutcome) : Nat × List Nat × Except FetchErr Nat :=
  fetchUrlGo net 1 3

/-! ## Celery beat schedule (`backend/app/tasks/celery_app.py`) -/

/-- The dict `celery_app.conf.beat_schedule`: each entry pairs the task name with
its crontab predicate over the wall clock hour and minute. -/
def beat_schedule : List (String × (Nat → Nat → Bool)) :=
  [("collect_news", fun _ m => m % 30 == 0),
   ("collect_hackernews", fun _ m => m % 15 == 0),
   ("collect_research", fun h m => h % 6 == 0 && m == 0),
   ("collect_github", fun _ m => m == 0),
   ("collect_jobs", fun h m => h % 2 == 0 && m == 30),
   ("collect_products", fun h m => h == 0 && m == 0),
   ("collect_mcp", fun h m => h == 1 && m == 0),
   ("collect_youtube", fun h m => h == 2 && m == 0)]

/-- The set of collector tasks Celery beat fires at a wake occurring at
clock time `h:m`. -/
def beatTriggered (h m : Nat) : List String :=
  (beat_schedule.filter (fun e => e.2 h m)).map Prod.fst

/-- Modelled from the spec: the per-source registry state the claimed
scheduler would consult (`backend/app/models/admin.py` `APISource`
configuration plus an in-flight flag). -/
structure SchedSource where
  slug : String
  is_active : Bool
  running : Bool
  last_fetched_at : Option Nat
  fetch_frequency : Nat
deriving DecidableEq, Repr

/-- Modelled from the spec: the due set the claim describes — sources with
`isActive=true`, not already running, whose `lastFetchedAt` is unset or
lies at least `fetchFrequencyMinutes` in the past. Times in minutes. -/
def claimDueSet (reg : List SchedSource) (now : Nat) : List String :=
  (reg.filter (fun s =>
    s.is_active && !s.running &&
      (match s.last_fetched_at with
       | none => true
       | some t => decide (now ≥ t + s.fetch_frequency)))).map SchedSource.slug

/-! ## Admin source endpoints (`backend/app/api/admin/sources.py`) -/

/-- The `APISource` model of `backend/app/models/admin.py`, restricted to
its column attributes. -/
structure APISource where
  id : Nat
  name : String
  slug : String
  source_type : String
  url : String
  is_active : Bool
  requires_api_key : Bool
  auto_approve : Bool
  fetch_frequency : Nat
  last_fetched_at : Option Int
  last_success_at : Option Int
  last_error : Option String
  error_count : Nat
  items_fetched : Nat
deriving DecidableEq, Repr

/-- Every field of an `APISource` other than `error_count` and
`last_error`, used to state frame conditions. -/
def sourceFrame (s : APISource) :
    Nat × String × String × String × String × Bool × Bool × Bool × Nat ×
      Option Int × Option Int × Nat :=
  (s.id, s.name, s.slug, s.source_type, s.url, s.is_active,
   s.requires_api_key, s.auto_approve, s.fetch_frequency,
   s.last_fetched_at, s.last_success_at, s.items_fetched)

/-- The endpoint `reset_source_errors`: `db.get(APISource, source_id)` — primary key
lookup — then `source.error_count = 0; source.last_error = None`, an audit
log append (a separate entity), and commit. A missing id raises a 404,
embedded as `Except.error 404`. The registry is the list of persisted
sources; the primary key is unique, so at most one element changes. -/
def reset_source_errors (reg : List APISource) (source_id : Nat) :
    Except Nat (String × Nat) × List APISource :=
  if (reg.find? (fun s => s.id == source_id)).isSome then
    (.ok ("Errors reset", source_id),
     reg.map (fun s =>
       if s.id == source_id then
         { s with error_count := 0, last_error := none }
       else s))
  else
    (.error 404, reg)

/-! ## Test harness (`test_source` in `backend/app/api/admin/sources.py`) -/

/-- One feed entry as `feedparser` hands it back; `entry.get` defaults are
applied where the handler reads it. -/
structure FeedEntry where
  title : Option String
  link : Option String
  published : Option String
deriving DecidableEq, Repr

/-- The result of `feedparser.parse`: `feedparser` does not raise, it
sets `bozo` and `bozo_exception` on malformed input. -/
structure Feed where
  bozo : Bool
  bozo_exception : Option String
  entries : List FeedEntry
deriving DecidableEq, Repr

/-- A parsed JSON document, as far as the handler inspects it. -/
inductive Json where
  | arr (xs : List Json)
  | obj (fields : List (String × Json))
  | prim (s : String)

/-- The network outcome of the single `client.get` of `test_source`: the
response carries its status, what `feedparser.parse(response.text)` would
yield, what `response.json()` would yield (`none` when it raises), and the
content-type header with the dict default already applied. -/
inductive TestNet where
  | timeout
  | connError (msg : String)
  | resp (status : Nat) (feed : Feed) (json : Option Json) (contentType : String)

/-- One element of `sample_items`. -/
inductive SampleItem where
  | entryItem (title link published : String)
  | jsonItem (j : Json)
  | contentTypeItem (ct : String)

/-- The schema `APISourceTestResponse`. -/
structure TestResponse where
  success : Bool
  message : String
  sample_items : Option (List SampleItem)
  error : Option String

/-- The loop `for key in ["items", "results", "data", "entries"]: if key in data and
isinstance(data[key], list): ... break` — the first matching key with a
list value. -/
def firstListKey (fields : List (String × Json)) :
    List String → Option (List Json)
  | [] => none
  | k :: ks =>
      match getJson fields k with
      | some (.arr xs) => some xs
      | _ => firstListKey fields ks
where
  getJson : List (String × Json) → String → Option Json
    | [], _ => none
    | (k1, v) :: rest, k => if k1 = k then some v else getJson rest k

/-- The success response of the API branch. -/
def apiOkResponse (sample : List SampleItem) (count : Nat) : TestResponse :=
  ⟨true, "API responded successfully. Found " ++ toString count ++ " items.",
   some sample, none⟩

/-- The response when `response.json()` (or indexing its result) raises:
the inner `except` returns a one-item sample naming the content type. -/
def notJsonResponse (contentType : String) : TestResponse :=
  ⟨true, "URL accessible but response is not JSON.",
   some [.contentTypeItem contentType], none⟩

/-- The endpoint `test_source`: dry-run a not-yet-saved source. The handler takes no
database dependency at all, so it is a pure function of the request and
the network outcome. `raise_for_status` errors reach the outer
`httpx.HTTPStatusError` handler, timeouts the `httpx.TimeoutException`
handler, everything else the generic handler. For an `rss` source the
feed is checked for `bozo` and the first three entries are sampled with
per-field defaults; otherwise the parsed JSON is sampled: the first three
elements of a list, the first three of the first conventional list field
of a dict, the dict itself as a single sample, and the inner `except`
path when the body is not JSON or is a bare scalar (the latter leaves the
sample variables unbound, raising inside the inner `try`). -/
def test_source (source_type : String) (net : TestNet) : TestResponse :=
  match net with
  | .timeout =>
      ⟨false, "Request timed out", none,
       some "Connection timed out after 30 seconds"⟩
  | .connError msg => ⟨false, "Connection failed", none, some msg⟩
  | .resp status feed json contentType =>
      if 400 ≤ status then
        ⟨false, "HTTP error: " ++ toString status, none,
         some ("HTTP status " ++ toString status)⟩
      else if source_type = "rss" then
        if feed.bozo && feed.bozo_exception.isSome then
          ⟨false, "Invalid RSS feed", none, feed.bozo_exception⟩
        else
          ⟨true,
           "RSS feed valid. Found " ++ toString feed.entries.length ++ " items.",
           some ((feed.entries.take 3).map (fun e =>
             .entryItem (e.title.getD "No title") (e.link.getD "")
               (e.published.getD ""))),
           none⟩
      else
        match json with
        | none => notJsonResponse contentType
        | some (.arr xs) =>
            apiOkResponse ((xs.take 3).map .jsonItem) xs.length
        | some (.obj fields) =>
            match firstListKey fields ["items", "results", "data", "entries"] with
            | some xs => apiOkResponse ((xs.take 3).map .jsonItem) xs.length
            | none => apiOkResponse [.jsonItem (.obj fields)] 1
        | some (.prim _) => notJsonResponse contentType

/-- The `test_source` endpoint seen together with the stores it could
have written: it receives no database session, so the Source Registry and
every content table pass through untouched. -/
def test_source_endpoint (source_type : String) (net : TestNet)
    (registry : List APISource) (content : List Row) :
    TestResponse × List APISource × List Row :=
  (test_source source_type net, registry, content)

/-- Number of returned sample items. -/
def sampleCount (r : TestResponse) : Nat :=
  (r.sample_items.getD []).length

/-! ## Association list lemmas -/

theorem getVal_eq_none_of_not_mem {fs : List (String × Val)} {k : String}
    (h : k ∉ keysOf fs) : getVal fs k = none := by
  induction fs with
  | nil => rfl
  | cons kv rest ih =>
      obtain ⟨k1, v1⟩ := kv
      simp only [keysOf, List.map_cons, List.mem_cons, not_or] at h
      rw [getVal, if_neg (fun hh => h.1 hh.symm)]
      exact ih h.2

theorem getVal_setField_self (fs : List (String × Val)) (k : String) (v : Val) :
    getVal (setField fs k v) k = v := by
  induction fs with
  | nil => simp [setField, getVal]
  | cons kv rest ih =>
      obtain ⟨k1, v1⟩ := kv
      by_cases h : k1 = k
      · simp [setField, h, getVal]
      · simp [setField, h, getVal, ih]

theorem getVal_setField_other (fs : List (String × Val)) {k k' : String}
    (v : Val) (h : k ≠ k') : getVal (setField fs k v) k' = getVal fs k' := by
  induction fs with
  | nil => simp [setField, getVal, h]
  | cons kv rest ih =>
      obtain ⟨k1, v1⟩ := kv
      by_cases h1 : k1 = k
      · subst h1
        simp [setField, getVal, h]
      · simp [setField, h1, getVal, ih]

theorem setField_mem_nodup {fs : List (String × Val)} {k : String} {v : Val}
    (hnd : (keysOf fs).Nodup) (h : (k, v) ∈ fs) : setField fs k v = fs := by
  induction fs with
  | nil => cases h
  | cons kv rest ih =>
      obtain ⟨k1, v1⟩ := kv
      simp only [keysOf, List.map_cons, List.nodup_cons] at hnd
      rcases List.mem_cons.mp h with heq | hmem
      · rw [Prod.mk.injEq] at heq
        simp [setField, heq.1.symm, heq.2]
      · have hk1 : k1 ≠ k := by
          intro hkk
          exact hnd.1 (hkk ▸ (List.mem_map.mpr ⟨(k, v), hmem, rfl⟩))
        simp [setField, hk1, ih hnd.2 hmem]

theorem applyUpdates_untouched {mf : List String} {it : Item} {k : String}
    (h : k ∉ keysOf it ∨ k ∉ mf ∨ k = "id") :
    ∀ fs, getVal (applyUpdates mf fs it) k = getVal fs k := by
  induction it with
  | nil => intro fs; rfl
  | cons kv rest ih =>
      intro fs
      obtain ⟨k1, v1⟩ := kv
      have hrest : k ∉ keysOf rest ∨ k ∉ mf ∨ k = "id" := by
        rcases h with h | h
        · exact Or.inl (fun hm =>
            h (by simpa [keysOf] using Or.inr (by simpa [keysOf] using hm)))
        · exact Or.inr h
      by_cases hk1 : k1 = k
      · subst hk1
        have hguard : ¬(k1 ∈ mf ∧ k1 ≠ "id") := by
          rcases h with h | h | h
          · exact absurd (by simp [keysOf]) h
          · exact fun hg => h hg.1
          · exact fun hg => hg.2 h
        simp only [applyUpdates, if_neg hguard]
        exact ih hrest fs
      · simp only [applyUpdates]
        split
        · rw [ih hrest, getVal_setField_other _ _ hk1]
        · exact ih hrest fs

theorem applyUpdates_set {mf : List String} {it : Item} {k : String}
    (hnd : (keysOf it).Nodup) (hk : k ∈ keysOf it) (hmf : k ∈ mf)
    (hid : k ≠ "id") :
    ∀ fs, getVal (applyUpdates mf fs it) k = getVal it k := by
  induction it with
  | nil => simp [keysOf] at hk
  | cons kv rest ih =>
      intro fs
      obtain ⟨k1, v1⟩ := kv
      simp only [keysOf, List.map_cons, List.nodup_cons] at hnd
      by_cases hk1 : k1 = k
      · subst hk1
        have hguard : k1 ∈ mf ∧ k1 ≠ "id" := ⟨hmf, hid⟩
        simp only [applyUpdates, if_pos hguard]
        have : k1 ∉ keysOf rest := hnd.1
        rw [applyUpdates_untouched (Or.inl this), getVal_setField_self]
        simp [getVal]
      · have hkrest : k ∈ keysOf rest := by
          simp only [keysOf, List.map_cons, List.mem_cons] at hk
          exact hk.resolve_left (fun hkk => hk1 hkk.symm)
        simp only [applyUpdates, getVal, if_neg hk1]
        split
        · exact ih hnd.2 hkrest _
        · exact ih hnd.2 hkrest fs

theorem applyUpdates_noop {mf : List String} {fs : List (String × Val)}
    (hnd : (keysOf fs).Nodup) :
    ∀ it : Item, (∀ kv ∈ it, kv ∈ fs) → applyUpdates mf fs it = fs := by
  intro it
  induction it with
  | nil => intro _; rfl
  | cons kv rest ih =>
      intro hsub
      obtain ⟨k1, v1⟩ := kv
      have hmem : (k1, v1) ∈ fs := hsub _ (List.mem_cons_self _ _)
      simp only [applyUpdates]
      split
      · rw [setField_mem_nodup hnd hmem]
        exact ih (fun kv2 h2 => hsub kv2 (List.mem_cons_of_mem _ h2))
      · exact ih (fun kv2 h2 => hsub kv2 (List.mem_cons_of_mem _ h2))

theorem updateRow_self {mf : List String} {it : Item}
    (hnd : (keysOf it).Nodup) : updateRow mf ⟨it⟩ it = ⟨it⟩ := by
  simp only [updateRow]
  rw [applyUpdates_noop hnd it (fun kv h => h)]

theorem map_noop {α : Type} {l : List α} {f : α → α}
    (h : ∀ x ∈ l, f x = x) : l.map f = l := by
  induction l with
  | nil => rfl
  | cons x rest ih =>
      simp only [List.map_cons, h x (List.mem_cons_self _ _),
        ih (fun y hy => h y (List.mem_cons_of_mem _ hy))]

/-! ## Branch lemmas for the upsert loop -/

theorem stepRows_insert {mf : List String} {uf : String} {rows : List Row}
    {it : Item} (hmf : uf ∈ mf)
    (hfresh : ∀ r ∈ rows, ¬(getVal r.fields uf = getVal it uf))
    (hvalid : ∀ k ∈ keysOf it, k ∈ mf) :
    stepRows mf uf rows it = (rows ++ [⟨it⟩], .inserted) := by
  have hfilter :
      rows.filter (fun r => decide (getVal r.fields uf = getVal it uf)) = [] :=
    List.filter_eq_nil_iff.mpr (by intro r hr; simpa using hfresh r hr)
  simp only [stepRows, if_pos hmf]
  rw [hfilter, if_pos hvalid]

theorem stepRows_update {mf : List String} {uf : String} {rows : List Row}
    {it : Item} {r0 : Row} (hmf : uf ∈ mf)
    (hfilter :
      rows.filter (fun r => decide (getVal r.fields uf = getVal it uf)) = [r0]) :
    stepRows mf uf rows it =
      (rows.map (fun r =>
        if getVal r.fields uf = getVal it uf then updateRow mf r it else r),
       .updated) := by
  simp only [stepRows, if_pos hmf]
  rw [hfilter]

theorem stepRows_errored_of_invalid {mf : List String} {uf : String}
    {rows : List Row} {it : Item}
    (hfresh : ∀ r ∈ rows, ¬(getVal r.fields uf = getVal it uf))
    (hbad : ∃ k ∈ keysOf it, k ∉ mf) :
    stepRows mf uf rows it = (rows, .errored) := by
  by_cases hmf : uf ∈ mf
  · have hfilter :
        rows.filter (fun r => decide (getVal r.fields uf = getVal it uf)) = [] :=
      List.filter_eq_nil_iff.mpr (by intro r hr; simpa using hfresh r hr)
    have hinvalid : ¬∀ k ∈ keysOf it, k ∈ mf := by
      obtain ⟨k, hk, hkn⟩ := hbad
      exact fun hall => hkn (hall k hk)
    simp only [stepRows, if_pos hmf]
    rw [hfilter]
    simp [hinvalid]
  · simp [stepRows, hmf]

theorem processItems_append (mf : List String) (uf : String)
    (l1 l2 : List Item) :
    ∀ rows : List Row,
      processItems mf uf rows (l1 ++ l2) =
        ((processItems mf uf (processItems mf uf rows l1).1 l2).1,
         (processItems mf uf rows l1).2 ++
           (processItems mf uf (processItems mf uf rows l1).1 l2).2) := by
  induction l1 with
  | nil => intro rows; simp [processItems]
  | cons it rest ih =>
      intro rows
      rw [List.cons_append]
      simp only [processItems]
      rw [ih]
      simp

/-- Processing a batch of valid items whose keys are pairwise distinct and
absent from storage inserts every item, in order. -/
theorem processItems_fresh (mf : List String) (uf : String) (hmf : uf ∈ mf) :
    ∀ (items : List Item) (rows : List Row),
      (items.map (fun it => getVal it uf)).Nodup →
      (∀ it ∈ items, ∀ r ∈ rows, ¬(getVal r.fields uf = getVal it uf)) →
      (∀ it ∈ items, ∀ k ∈ keysOf it, k ∈ mf) →
      processItems mf uf rows items =
        (rows ++ items.map (fun it => (⟨it⟩ : Row)),
         List.replicate items.length .inserted) := by
  intro items
  induction items with
  | nil => intro rows _ _ _; simp [processItems]
  | cons it rest ih =>
      intro rows hnd hfresh hvalid
      simp only [List.map_cons, List.nodup_cons] at hnd
      have hstep := stepRows_insert hmf
        (hfresh it (List.mem_cons_self _ _)) (hvalid it (List.mem_cons_self _ _))
      have hrest :
          ∀ it2 ∈ rest, ∀ r ∈ rows ++ [(⟨it⟩ : Row)],
            ¬(getVal r.fields uf = getVal it2 uf) := by
        intro it2 h2 r hr
        rcases List.mem_append.mp hr with hr | hr
        · exact hfresh it2 (List.mem_cons_of_mem _ h2) r hr
        · rcases List.mem_singleton.mp hr with rfl
          intro heq
          exact hnd.1 (List.mem_map.mpr ⟨it2, h2, heq.symm⟩)
      have hrec := ih (rows ++ [⟨it⟩]) hnd.2 hrest
        (fun it2 h2 => hvalid it2 (List.mem_cons_of_mem _ h2))
      simp only [processItems, hstep, hrec]
      simp [List.replicate_succ]

/-- Processing a batch each of whose items matches exactly its own row in
storage updates every item in place and leaves the stored rows unchanged. -/
theorem processItems_hits (mf : List String) (uf : String) (hmf : uf ∈ mf) :
    ∀ (items : List Item) (rows : List Row),
      (∀ it ∈ items,
        rows.filter (fun r => decide (getVal r.fields uf = getVal it uf)) =
          [(⟨it⟩ : Row)]) →
      (∀ it ∈ items, (keysOf it).Nodup) →
      processItems mf uf rows items =
        (rows, List.replicate items.length .updated) := by
  intro items
  induction items with
  | nil => intro rows _ _; simp [processItems]
  | cons it rest ih =>
      intro rows hhit hnd
      have hfilter := hhit it (List.mem_cons_self _ _)
      have hstep := stepRows_update hmf hfilter
      have hmapnoop :
          rows.map (fun r =>
            if getVal r.fields uf = getVal it uf then updateRow mf r it
            else r) = rows := by
        apply map_noop
        intro r hr
        by_cases hpred : getVal r.fields uf = getVal it uf
        · have : r ∈ rows.filter
              (fun r => decide (getVal r.fields uf = getVal it uf)) :=
            List.mem_filter.mpr ⟨hr, by simpa using hpred⟩
          rw [hfilter] at this
          rcases List.mem_singleton.mp this with rfl
          rw [if_pos hpred]
          exact updateRow_self (hnd it (List.mem_cons_self _ _))
        · rw [if_neg hpred]
      have hrec := ih rows (fun it2 h2 => hhit it2 (List.mem_cons_of_mem _ h2))
        (fun it2 h2 => hnd it2 (List.mem_cons_of_mem _ h2))
      simp only [processItems, hstep, hmapnoop, hrec]
      simp [List.replicate_succ]

/-- In storage built by inserting a batch with pairwise distinct keys,
each item of the batch matches exactly its own row. -/
theorem filter_of_fresh_batch (uf : String) :
    ∀ batch : List Item,
      (batch.map (fun it => getVal it uf)).Nodup →
      ∀ it ∈ batch,
        (batch.map (fun it2 => (⟨it2⟩ : Row))).filter
            (fun r => decide (getVal r.fields uf = getVal it uf)) =
          [(⟨it⟩ : Row)] := by
  intro batch
  induction batch with
  | nil => intro _ it h; cases h
  | cons b rest ih =>
      intro hnd it hit
      simp only [List.map_cons, List.nodup_cons] at hnd
      rcases List.mem_cons.mp hit with rfl | hmem
      · have hrest :
            (rest.map (fun it2 => (⟨it2⟩ : Row))).filter
                (fun r => decide (getVal r.fields uf = getVal it uf)) = [] := by
          apply List.filter_eq_nil_iff.mpr
          intro r hr
          rcases List.mem_map.mp hr with ⟨it2, h2, rfl⟩
          simp only [decide_eq_true_eq]
          intro heq
          exact hnd.1 (List.mem_map.mpr ⟨it2, h2, heq⟩)
        simp [List.filter_cons, hrest]
      · have hne : ¬(getVal b uf = getVal it uf) := by
          intro heq
          exact hnd.1 (List.mem_map.mpr ⟨it, hmem, heq.symm⟩)
        simp only [List.map_cons, List.filter_cons]
        rw [if_neg (by simpa using hne)]
        exact ih hnd.2 it hmem

/-- A filter returning two or more matches makes `scalar_one_or_none`
raise `MultipleResultsFound`, which the per-item handler catches. -/
theorem stepRows_errored_multi {mf : List String} {uf : String}
    {rows : List Row} {it : Item} {r0 r1 : Row} {rs : List Row}
    (hmf : uf ∈ mf)
    (hfil : rows.filter (fun r => decide (getVal r.fields uf = getVal it uf)) =
      r0 :: r1 :: rs) :
    stepRows mf uf rows it = (rows, .errored) := by
  simp only [stepRows, if_pos hmf]
  rw [hfil]

/-- One loop iteration can only create or rewrite rows whose unique-field
value is the processed item key; every other stored key is preserved. -/
theorem rowKeys_stepRows {mf : List String} {uf : String} {rows : List Row}
    {it : Item} (hnd : (keysOf it).Nodup) {v : Val}
    (hv : v ∈ ((stepRows mf uf rows it).1.map (fun r => getVal r.fields uf))) :
    v ∈ rows.map (fun r => getVal r.fields uf) ∨ v = getVal it uf := by
  by_cases hmf : uf ∈ mf
  · rcases hfil : rows.filter
        (fun r => decide (getVal r.fields uf = getVal it uf)) with
      _ | ⟨r0, _ | ⟨r1, rs⟩⟩
    · have hfresh : ∀ r ∈ rows, ¬(getVal r.fields uf = getVal it uf) := by
        intro r hr
        have := List.filter_eq_nil_iff.mp hfil r hr
        simpa using this
      by_cases hval : ∀ k ∈ keysOf it, k ∈ mf
      · rw [stepRows_insert hmf hfresh hval] at hv
        rcases List.mem_map.mp hv with ⟨r, hr, rfl⟩
        rcases List.mem_append.mp hr with hr | hr
        · exact Or.inl (List.mem_map.mpr ⟨r, hr, rfl⟩)
        · rcases List.mem_singleton.mp hr with rfl
          exact Or.inr rfl
      · have hbad : ∃ k ∈ keysOf it, k ∉ mf := by
          push_neg at hval
          exact hval
        rw [stepRows_errored_of_invalid hfresh hbad] at hv
        exact Or.inl hv
    · rw [stepRows_update hmf hfil] at hv
      rcases List.mem_map.mp hv with ⟨r1, hr1, rfl⟩
      rcases List.mem_map.mp hr1 with ⟨r, hr, rfl⟩
      by_cases hpred : getVal r.fields uf = getVal it uf
      · rw [if_pos hpred]
        by_cases hufk : uf ∈ keysOf it
        · by_cases hufid : uf = "id"
          · rw [updateRow, applyUpdates_untouched (Or.inr (Or.inr hufid))]
            exact Or.inl (List.mem_map.mpr ⟨r, hr, rfl⟩)
          · rw [updateRow, applyUpdates_set hnd hufk hmf hufid]
            exact Or.inr rfl
        · rw [updateRow, applyUpdates_untouched (Or.inl hufk)]
          exact Or.inl (List.mem_map.mpr ⟨r, hr, rfl⟩)
      · rw [if_neg hpred]
        exact Or.inl (List.mem_map.mpr ⟨r, hr, rfl⟩)
    · rw [stepRows_errored_multi hmf hfil] at hv
      exact Or.inl hv
  · have hstep : stepRows mf uf rows it = (rows, .errored) := by
      simp [stepRows, hmf]
    rw [hstep] at hv
    exact Or.inl hv

/-- Across a whole batch, every stored unique-field value after the run
was either already stored or is the key of one of the batch items. -/
theorem processItems_rowKeys (mf : List String) (uf : String) :
    ∀ (items : List Item) (rows : List Row),
      (∀ it ∈ items, (keysOf it).Nodup) →
      ∀ v, v ∈ ((processItems mf uf rows items).1.map
          (fun r => getVal r.fields uf)) →
        v ∈ rows.map (fun r => getVal r.fields uf) ∨
          ∃ it ∈ items, v = getVal it uf := by
  intro items
  induction items with
  | nil => intro rows _ v hv; exact Or.inl hv
  | cons it rest ih =>
      intro rows hnd v hv
      simp only [processItems] at hv
      rcases ih (stepRows mf uf rows it).1
          (fun it2 h2 => hnd it2 (List.mem_cons_of_mem _ h2)) v hv with
        h | ⟨it2, h2, rfl⟩
      · rcases rowKeys_stepRows (hnd it (List.mem_cons_self _ _)) h with h | rfl
        · exact Or.inl h
        · exact Or.inr ⟨it, List.mem_cons_self _ _, rfl⟩
      · exact Or.inr ⟨it2, List.mem_cons_of_mem _ h2, rfl⟩

theorem countInserted_replicate_inserted (n : Nat) :
    countInserted (List.replicate n .inserted) = n := by
  simp [countInserted, List.filter_replicate]

theorem countUpdated_replicate_inserted (n : Nat) :
    countUpdated (List.replicate n .inserted) = 0 := by
  simp [countUpdated, List.filter_replicate]

theorem countInserted_replicate_updated (n : Nat) :
    countInserted (List.replicate n .updated) = 0 := by
  simp [countInserted, List.filter_replicate]

theorem countUpdated_replicate_updated (n : Nat) :
    countUpdated (List.replicate n .updated) = n := by
  simp [countUpdated, List.filter_replicate]

/-! ## Claim theorems -/

/-- C2: for every batch of well-formed records with pairwise-distinct
`externalId`s, running the upsert engine on empty storage and then again
on the same unchanged batch yields `(inserted=len(B), updated=0)` for the
first run and `(inserted=0, updated=len(B))` for the second, and the
second run leaves the stored rows unchanged. -/
theorem upsert_idempotent (mf : List String) (batch : List Item)
    (hmf : "external_id" ∈ mf)
    (hnd : (batch.map (fun it => getVal it "external_id")).Nodup)
    (hkeys : ∀ it ∈ batch, (keysOf it).Nodup)
    (hvalid : ∀ it ∈ batch, ∀ k ∈ keysOf it, k ∈ mf) :
    countInserted (processItems mf "external_id" [] batch).2 = batch.length ∧
    countUpdated (processItems mf "external_id" [] batch).2 = 0 ∧
    countInserted (processItems mf "external_id"
      (processItems mf "external_id" [] batch).1 batch).2 = 0 ∧
    countUpdated (processItems mf "external_id"
      (processItems mf "external_id" [] batch).1 batch).2 = batch.length ∧
    (processItems mf "external_id"
      (processItems mf "external_id" [] batch).1 batch).1 =
      (processItems mf "external_id" [] batch).1 ∧
    (upsert_items mf "external_id" [] batch).2 = batch.length := by
  have h1 := processItems_fresh mf "external_id" hmf batch []
    hnd (by intro it _ r hr; cases hr) hvalid
  have h2 := processItems_hits mf "external_id" hmf batch
    (batch.map fun it => (⟨it⟩ : Row))
    (filter_of_fresh_batch "external_id" batch hnd) hkeys
  rw [h1]
  simp only [List.nil_append]
  rw [h2]
  refine ⟨countInserted_replicate_inserted _,
    countUpdated_replicate_inserted _,
    countInserted_replicate_updated _,
    countUpdated_replicate_updated _, rfl, ?_⟩
  simp only [upsert_items, h1, List.nil_append]
  exact countInserted_replicate_inserted _

/-- C6: sequential processing of a batch whose two records share one
`externalId` value (not yet present in storage) persists exactly one row
for that key, and the fields of that row are those of the later record. -/
theorem intra_batch_dedup (mf : List String) (rows : List Row) (r1 r2 : Item)
    (hmf : "external_id" ∈ mf)
    (hfresh : ∀ r ∈ rows,
      ¬(getVal r.fields "external_id" = getVal r1 "external_id"))
    (hsame : getVal r1 "external_id" = getVal r2 "external_id")
    (hv1 : ∀ k ∈ keysOf r1, k ∈ mf)
    (hv2 : ∀ k ∈ keysOf r2, k ∈ mf)
    (hsub : ∀ k ∈ keysOf r1, k ∈ keysOf r2)
    (hnd2 : (keysOf r2).Nodup)
    (hid : "id" ∉ keysOf r2) :
    ∃ row : Row,
      (processItems mf "external_id" rows [r1, r2]).1 = rows ++ [row] ∧
      (∀ k, getVal row.fields k = getVal r2 k) ∧
      ((processItems mf "external_id" rows [r1, r2]).1.filter
        (fun r => decide
          (getVal r.fields "external_id" = getVal r2 "external_id"))).length
        = 1 ∧
      (processItems mf "external_id" rows [r1, r2]).2 =
        [.inserted, .updated] := by
  have hstep1 := stepRows_insert hmf hfresh hv1
  have hfilrows : rows.filter
      (fun r => decide
        (getVal r.fields "external_id" = getVal r2 "external_id")) = [] := by
    apply List.filter_eq_nil_iff.mpr
    intro r hr
    rw [← hsame]
    simpa using hfresh r hr
  have hr1fields : ((⟨r1⟩ : Row)).fields = r1 := rfl
  have hfil2 : (rows ++ [(⟨r1⟩ : Row)]).filter
      (fun r => decide
        (getVal r.fields "external_id" = getVal r2 "external_id")) =
      [(⟨r1⟩ : Row)] := by
    rw [List.filter_append, hfilrows]
    simp [hr1fields, hsame]
  have hstep2 := stepRows_update hmf hfil2
  have hfields : ∀ k,
      getVal (updateRow mf (⟨r1⟩ : Row) r2).fields k = getVal r2 k := by
    intro k
    by_cases hk : k ∈ keysOf r2
    · have hkid : k ≠ "id" := fun h => hid (h ▸ hk)
      rw [updateRow, applyUpdates_set hnd2 hk (hv2 k hk) hkid]
    · rw [updateRow, applyUpdates_untouched (Or.inl hk), hr1fields]
      have hk1 : k ∉ keysOf r1 := fun h1 => hk (hsub k h1)
      rw [getVal_eq_none_of_not_mem hk1, getVal_eq_none_of_not_mem hk]
  have hmap : (rows ++ [(⟨r1⟩ : Row)]).map
      (fun r =>
        if getVal r.fields "external_id" = getVal r2 "external_id" then
          updateRow mf r r2
        else r) = rows ++ [updateRow mf (⟨r1⟩ : Row) r2] := by
    rw [List.map_append]
    congr 1
    · apply map_noop
      intro r hr
      rw [if_neg]
      rw [← hsame]
      exact hfresh r hr
    · simp [hr1fields, hsame]
  have hproc : processItems mf "external_id" rows [r1, r2] =
      (rows ++ [updateRow mf (⟨r1⟩ : Row) r2], [.inserted, .updated]) := by
    simp only [processItems, hstep1, hstep2, hmap]
  refine ⟨updateRow mf (⟨r1⟩ : Row) r2, by rw [hproc], hfields, ?_, by rw [hproc]⟩
  rw [hproc]
  simp only [List.filter_append, hfilrows, List.nil_append]
  simp [hfields]

/-- C4: one record whose persistence fails (here: a validation failure,
`model(**item)` rejecting a field the model does not define) is caught and
skipped, and the rest of the batch is processed exactly as if the failing
record were absent; the loop records one error for it. -/
theorem partial_failure_isolation (mf : List String) (uf : String)
    (rows : List Row) (pre post : List Item) (bad : Item)
    (hndpre : ∀ it ∈ pre, (keysOf it).Nodup)
    (hrows : ∀ r ∈ rows, ¬(getVal r.fields uf = getVal bad uf))
    (hpre : ∀ it ∈ pre, ¬(getVal it uf = getVal bad uf))
    (hbad : ∃ k ∈ keysOf bad, k ∉ mf) :
    (processItems mf uf rows (pre ++ bad :: post)).1 =
      (processItems mf uf rows (pre ++ post)).1 ∧
    (processItems mf uf rows (pre ++ bad :: post)).2 =
      (processItems mf uf rows pre).2 ++ .errored ::
        (processItems mf uf (processItems mf uf rows pre).1 post).2 := by
  have hfreshbad : ∀ r ∈ (processItems mf uf rows pre).1,
      ¬(getVal r.fields uf = getVal bad uf) := by
    intro r hr heq
    have hv := processItems_rowKeys mf uf pre rows hndpre (getVal r.fields uf)
      (List.mem_map.mpr ⟨r, hr, rfl⟩)
    rcases hv with h | ⟨it, hit, hkey⟩
    · rcases List.mem_map.mp h with ⟨r0, hr0, hkey0⟩
      exact hrows r0 hr0 (hkey0.trans heq)
    · exact hpre it hit (hkey.symm.trans heq)
  have hstepbad : stepRows mf uf (processItems mf uf rows pre).1 bad =
      ((processItems mf uf rows pre).1, .errored) :=
    stepRows_errored_of_invalid hfreshbad hbad
  constructor
  · rw [processItems_append mf uf pre (bad :: post) rows,
      processItems_append mf uf pre post rows]
    simp only [processItems, hstepbad]
  · rw [processItems_append mf uf pre (bad :: post) rows]
    simp only [processItems, hstepbad]

theorem map_congr_mem {α β : Type} {l : List α} {f g : α → β}
    (h : ∀ x ∈ l, f x = g x) : l.map f = l.map g := by
  induction l with
  | nil => rfl
  | cons x rest ih =>
      simp only [List.map_cons, h x (List.mem_cons_self _ _),
        ih (fun y hy => h y (List.mem_cons_of_mem _ hy))]

/-- C1 (amended): every record — with or without an `externalId` — is
looked up by its `externalId` value (`None` matching `NULL`-keyed rows);
when no row matches, a valid record is inserted as a new row; when exactly
one row matches, the loop updates that row in place: every field present
in the record that the model defines, except the primary key `id`, is
overwritten, and every other column of the row, `id` included, keeps its
stored value. -/
theorem upsert_record_characterization (mf : List String) (rows : List Row)
    (it : Item)
    (hmf : "external_id" ∈ mf)
    (hvalid : ∀ k ∈ keysOf it, k ∈ mf)
    (hnd : (keysOf it).Nodup) :
    ((∀ r ∈ rows,
        ¬(getVal r.fields "external_id" = getVal it "external_id")) →
      stepRows mf "external_id" rows it = (rows ++ [⟨it⟩], .inserted)) ∧
    (∀ r0, rows.filter
        (fun r => decide
          (getVal r.fields "external_id" = getVal it "external_id")) = [r0] →
      (stepRows mf "external_id" rows it).2 = .updated ∧
      (stepRows mf "external_id" rows it).1.length = rows.length ∧
      (∀ k ∈ keysOf it, k ≠ "id" →
        getVal (updateRow mf r0 it).fields k = getVal it k) ∧
      (∀ k, k ∉ keysOf it →
        getVal (updateRow mf r0 it).fields k = getVal r0.fields k) ∧
      getVal (updateRow mf r0 it).fields "id" = getVal r0.fields "id" ∧
      (stepRows mf "external_id" rows it).1 =
        rows.map (fun r =>
          if getVal r.fields "external_id" = getVal it "external_id" then
            updateRow mf r0 it
          else r)) := by
  constructor
  · intro hfresh
    exact stepRows_insert hmf hfresh hvalid
  · intro r0 hfil
    have hstep := stepRows_update hmf hfil
    have honly : ∀ r ∈ rows,
        getVal r.fields "external_id" = getVal it "external_id" → r = r0 := by
      intro r hr hpred
      have : r ∈ rows.filter
          (fun r => decide
            (getVal r.fields "external_id" = getVal it "external_id")) :=
        List.mem_filter.mpr ⟨hr, by simpa using hpred⟩
      rw [hfil] at this
      exact List.mem_singleton.mp this
    refine ⟨by rw [hstep], by rw [hstep]; exact List.length_map _ _, ?_, ?_, ?_, ?_⟩
    · intro k hk hkid
      rw [updateRow, applyUpdates_set hnd hk (hvalid k hk) hkid]
    · intro k hk
      rw [updateRow, applyUpdates_untouched (Or.inl hk)]
    · rw [updateRow, applyUpdates_untouched (Or.inr (Or.inr rfl))]
    · rw [hstep]
      apply map_congr_mem
      intro r hr
      by_cases hpred : getVal r.fields "external_id" = getVal it "external_id"
      · rw [if_pos hpred, if_pos hpred, honly r hr hpred]
      · rw [if_neg hpred, if_neg hpred]

/-- C1 counterexample: a record with no `externalId` at all is not
inserted as a new row when storage already holds a row whose
`external_id` column is `NULL`: the lookup `external_id == None` compiles
to `IS NULL`, matches that row, and the record is merged into it. The
batch of one record yields `inserted = 0`, storage keeps a single row,
and that row now carries the new record's title. -/
theorem upsert_null_merge_counterexample :
    (upsert_items ["id", "external_id", "title"] "external_id"
      [⟨[("external_id", none), ("title", some "old")]⟩]
      [[("title", some "curated")]]).2 = 0 ∧
    (upsert_items ["id", "external_id", "title"] "external_id"
      [⟨[("external_id", none), ("title", some "old")]⟩]
      [[("title", some "curated")]]).1 =
      [⟨[("external_id", none), ("title", some "curated")]⟩] := by
  exact ⟨rfl, rfl⟩

theorem attemptOnce_ok {o : NetOutcome} {s : Nat}
    (h : attemptOnce o = .ok s) : o = .resp s ∧ s < 400 := by
  cases o with
  | resp status =>
      by_cases h4 : 400 ≤ status
      · rw [attemptOnce, if_pos h4] at h
        cases h
      · rw [attemptOnce, if_neg h4] at h
        cases h
        exact ⟨rfl, by omega⟩
  | timeout => cases h
  | connError => cases h

/-- C3 (amended): the transport makes at most 3 calls, never a 4th; its
backoff waits are non-decreasing, start at 2 seconds and are capped at 10
seconds; when all three attempts fail — transient failures and 4xx/5xx
statuses alike, since tenacity retries every raised exception — exactly 3
calls are made with waits 2s then 4s and the final error is raised; a
response is returned to the caller only when some attempt got a status
below 400. -/
theorem fetch_url_retry_spec (net : Nat → NetOutcome) :
    (fetch_url net).1 ≤ 3 ∧
    (∀ w ∈ (fetch_url net).2.1, 2 ≤ w ∧ w ≤ 10) ∧
    (fetch_url net).2.1.Chain' (· ≤ ·) ∧
    (((attemptOnce (net 1)).isOk = false ∧
        (attemptOnce (net 2)).isOk = false ∧
        (attemptOnce (net 3)).isOk = false) →
      (fetch_url net).1 = 3 ∧ (fetch_url net).2.1 = [2, 4] ∧
        ∃ e, (fetch_url net).2.2 = .error e) ∧
    (∀ s, (fetch_url net).2.2 = .ok s →
      s < 400 ∧ ∃ i, 1 ≤ i ∧ i ≤ 3 ∧ net i = .resp s) := by
  cases h1 : attemptOnce (net 1) with
  | ok s1 =>
      have hf : fetch_url net = (1, [], .ok s1) := by
        simp [fetch_url, fetchUrlGo, h1]
      rw [hf]
      refine ⟨by omega, by simp, by simp, ?_, ?_⟩
      · rintro ⟨hbad, -, -⟩
        simp [Except.isOk, Except.toBool] at hbad
      · intro s hs
        cases hs
        rcases attemptOnce_ok h1 with ⟨hnet, hlt⟩
        exact ⟨hlt, 1, by omega, by omega, hnet⟩
  | error e1 =>
      cases h2 : attemptOnce (net 2) with
      | ok s2 =>
          have hf : fetch_url net = (2, [2], .ok s2) := by
            simp [fetch_url, fetchUrlGo, h1, h2, waitExponential]
          rw [hf]
          refine ⟨by omega, by simp, by simp, ?_, ?_⟩
          · rintro ⟨-, hbad, -⟩
            simp [Except.isOk, Except.toBool] at hbad
          · intro s hs
            cases hs
            rcases attemptOnce_ok h2 with ⟨hnet, hlt⟩
            exact ⟨hlt, 2, by omega, by omega, hnet⟩
      | error e2 =>
          cases h3 : attemptOnce (net 3) with
          | ok s3 =>
              have hf : fetch_url net = (3, [2, 4], .ok s3) := by
                simp [fetch_url, fetchUrlGo, h1, h2, h3, waitExponential]
              rw [hf]
              refine ⟨by omega, ?_, ?_, ?_, ?_⟩
              · intro w hw
                simp at hw
                rcases hw with rfl | rfl <;> omega
              · simp [List.chain'_cons]
              · rintro ⟨-, -, hbad⟩
                simp [Except.isOk, Except.toBool] at hbad
              · intro s hs
                cases hs
                rcases attemptOnce_ok h3 with ⟨hnet, hlt⟩
                exact ⟨hlt, 3, by omega, by omega, hnet⟩
          | error e3 =>
              have hf : fetch_url net = (3, [2, 4], .error e3) := by
                simp [fetch_url, fetchUrlGo, h1, h2, h3, waitExponential]
              rw [hf]
              refine ⟨by omega, ?_, ?_, ?_, ?_⟩
              · intro w hw
                simp at hw
                rcases hw with rfl | rfl <;> omega
              · simp [List.chain'_cons]
              · intro _
                exact ⟨rfl, rfl, e3, rfl⟩
              · intro s hs
                cases hs

/-- C3 counterexample: a permanent 404 response is retried — three calls
are made, not one — and the outcome raised to the caller is the
`HTTPStatusError`, not the 4xx response itself: tenacity's default retry
predicate retries every exception, including the `raise_for_status` error
re-raised by the handler, so a 4xx is neither returned as-is nor exempt
from retries. -/
theorem fetch_url_4xx_counterexample :
    (fetch_url (fun _ => NetOutcome.resp 404)).1 = 3 ∧
    (fetch_url (fun _ => NetOutcome.resp 404)).2.2 =
      Except.error (FetchErr.httpStatus 404) := by
  exact ⟨rfl, rfl⟩

/-- C5: the health classification computed on read matches the spec
clause for clause: inactive overrides everything; otherwise at least five
errors classify as `error`; otherwise one-to-four errors, or a recorded
last fetch more than twice the configured frequency in the past, classify
as `warning`; otherwise `ok`. -/
theorem source_health_matches_spec (a : Bool) (e : Nat) (l : Option Int)
    (now f : Int) :
    get_source_health a e l now f = healthSpec a e l now f := by
  cases a with
  | false => rfl
  | true =>
      by_cases h5 : e ≥ 5
      · simp [get_source_health, healthSpec, h5]
      · by_cases h0 : e > 0
        · have h14 : 1 ≤ e ∧ e ≤ 4 := ⟨h0, by omega⟩
          simp [get_source_health, healthSpec, h5, h0, h14]
        · have he : e = 0 := by omega
          subst he
          cases l with
          | none => rfl
          | some t =>
              have hmul : f * 60 * 2 = 2 * f * 60 := by ring
              by_cases hov : now - t > f * 60 * 2
              · have hov2 : now - t > 2 * f * 60 := by omega
                simp [get_source_health, healthSpec, hov, hov2]
              · have hov2 : ¬(now - t > 2 * f * 60) := by omega
                simp [get_source_health, healthSpec, hov, hov2]

/-- C10: an active source with no errors that has never been fetched is
classified `ok`: the overdue test runs only when `last_fetched_at` is
set, so a never-fetched source is not `warning`. -/
theorem never_fetched_active_source_ok (now f : Int) :
    get_source_health true 0 none now f = "ok" := rfl

/-- Membership in the triggered set unfolds to an entry of the schedule
whose crontab predicate holds at the wake time. -/
theorem mem_beatTriggered {name : String} {h m : Nat} :
    name ∈ beatTriggered h m ↔
      ∃ e ∈ beat_schedule, e.1 = name ∧ e.2 h m = true := by
  simp only [beatTriggered, List.mem_map, List.mem_filter]
  constructor
  · rintro ⟨e, ⟨he, hp⟩, rfl⟩
    exact ⟨e, he, rfl, hp⟩
  · rintro ⟨e, he, rfl, hp⟩
    exact ⟨e, ⟨he, hp⟩, rfl⟩

/-- C7 counterexample: the Celery beat scheduler fires collector tasks on
fixed crontab entries and never consults the Source Registry. At a wake
at 00:00 with an empty registry — no source exists, so no source can be
due — the code still triggers five collector tasks, contradicting the
claim that the triggered set is exactly the due set of active,
non-running sources. -/
theorem beat_ignores_registry_counterexample :
    beatTriggered 0 0 =
      ["collect_news", "collect_hackernews", "collect_research",
       "collect_github", "collect_products"] ∧
    claimDueSet [] 0 = [] ∧
    claimDueSet
      [⟨"news", false, false, none, 30⟩] 0 = [] := by
  exact ⟨rfl, rfl, rfl⟩

/-- C7 (amended): at each wake the set of triggered collector tasks is a
fixed function of the wall clock alone — news at every minute divisible
by 30, Hacker News at every minute divisible by 15, research at minute 0
of hours divisible by 6, GitHub at minute 0 of every hour, jobs at minute
30 of even hours, products at 00:00, MCP at 01:00, YouTube at 02:00 —
with no dependence on `isActive`, `lastFetchedAt`, `fetchFrequencyMinutes`
or a per-source running state. -/
theorem beat_schedule_characterization (h m : Nat) :
    ("collect_news" ∈ beatTriggered h m ↔ m % 30 = 0) ∧
    ("collect_hackernews" ∈ beatTriggered h m ↔ m % 15 = 0) ∧
    ("collect_research" ∈ beatTriggered h m ↔ (h % 6 = 0 ∧ m = 0)) ∧
    ("collect_github" ∈ beatTriggered h m ↔ m = 0) ∧
    ("collect_jobs" ∈ beatTriggered h m ↔ (h % 2 = 0 ∧ m = 30)) ∧
    ("collect_products" ∈ beatTriggered h m ↔ (h = 0 ∧ m = 0)) ∧
    ("collect_mcp" ∈ beatTriggered h m ↔ (h = 1 ∧ m = 0)) ∧
    ("collect_youtube" ∈ beatTriggered h m ↔ (h = 2 ∧ m = 0)) := by
  refine ⟨?_, ?_, ?_, ?_, ?_, ?_, ?_, ?_⟩ <;>
    rw [mem_beatTriggered] <;>
    simp [beat_schedule]

/-- C8: the test harness is a pure dry run: for every request and network
outcome the Source Registry and the content storage pass through the
endpoint unchanged, and the returned `sample_items` holds at most 3
items. -/
theorem test_source_isolated (source_type : String) (net : TestNet)
    (registry : List APISource) (content : List Row) :
    (test_source_endpoint source_type net registry content).2.1 = registry ∧
    (test_source_endpoint source_type net registry content).2.2 = content ∧
    sampleCount (test_source source_type net) ≤ 3 := by
  refine ⟨rfl, rfl, ?_⟩
  cases net with
  | timeout => simp [test_source, sampleCount]
  | connError msg => simp [test_source, sampleCount]
  | resp status feed json ct =>
      by_cases h4 : 400 ≤ status
      · simp [test_source, h4, sampleCount]
      · by_cases hrss : source_type = "rss"
        · by_cases hbozo : feed.bozo && feed.bozo_exception.isSome
          · simp [test_source, h4, hrss, hbozo, sampleCount]
          · have hb : (feed.bozo && feed.bozo_exception.isSome) = false := by
              simpa using hbozo
            simp [test_source, h4, hrss, hb, sampleCount,
              List.length_take]
        · cases json with
          | none => simp [test_source, h4, hrss, notJsonResponse, sampleCount]
          | some j =>
              cases j with
              | arr xs =>
                  simp only [test_source, if_neg h4, if_neg hrss,
                    apiOkResponse, sampleCount, Option.getD_some,
                    List.length_map, List.length_take]
                  omega
              | obj fields =>
                  cases hfk : firstListKey fields
                      ["items", "results", "data", "entries"] with
                  | none =>
                      simp [test_source, h4, hrss, hfk, apiOkResponse,
                        sampleCount]
                  | some xs =>
                      simp only [test_source, if_neg h4, if_neg hrss, hfk,
                        apiOkResponse, sampleCount, Option.getD_some,
                        List.length_map, List.length_take]
                      omega
              | prim s =>
                  simp [test_source, h4, hrss, notJsonResponse, sampleCount]

/-- C9: resetting errors on an existing source succeeds, zeroes
`error_count`, clears `last_error`, leaves `last_fetched_at` and every
other field of every source unchanged, and running it a second time
returns the same result and the same registry. -/
theorem reset_source_errors_spec (reg : List APISource) (sid : Nat)
    (hex : (reg.find? (fun s => s.id == sid)).isSome) :
    (reset_source_errors reg sid).1 = .ok ("Errors reset", sid) ∧
    (reset_source_errors reg sid).2.map sourceFrame = reg.map sourceFrame ∧
    (∀ s ∈ (reset_source_errors reg sid).2, s.id = sid →
      s.error_count = 0 ∧ s.last_error = none) ∧
    reset_source_errors (reset_source_errors reg sid).2 sid =
      ((reset_source_errors reg sid).1, (reset_source_errors reg sid).2) := by
  have hres : reset_source_errors reg sid =
      (.ok ("Errors reset", sid),
       reg.map (fun s =>
         if s.id == sid then { s with error_count := 0, last_error := none }
         else s)) := by
    rw [reset_source_errors, if_pos hex]
  have hframe : ∀ s : APISource,
      sourceFrame (if s.id == sid then
        { s with error_count := 0, last_error := none } else s) =
        sourceFrame s := by
    intro s
    by_cases hid : s.id == sid
    · rw [if_pos hid]
      rfl
    · rw [if_neg hid]
  have hfind2 : (((reg.map (fun s =>
      if s.id == sid then { s with error_count := 0, last_error := none }
      else s)).find? (fun s => s.id == sid))).isSome := by
    rcases List.find?_isSome.mp hex with ⟨s, hs, hp⟩
    apply List.find?_isSome.mpr
    refine ⟨if s.id == sid then
      { s with error_count := 0, last_error := none } else s,
      List.mem_map.mpr ⟨s, hs, rfl⟩, ?_⟩
    rw [if_pos hp]
    exact hp
  refine ⟨by rw [hres], ?_, ?_, ?_⟩
  · rw [hres]
    simp only [List.map_map]
    apply map_congr_mem
    intro s _
    exact hframe s
  · rw [hres]
    intro s hs hsid
    rcases List.mem_map.mp hs with ⟨s0, _, rfl⟩
    by_cases hid : s0.id == sid
    · rw [if_pos hid]
      exact ⟨rfl, rfl⟩
    · rw [if_neg hid] at hsid ⊢
      exact absurd (by simpa using hsid) (by simpa using hid)
  · rw [hres]
    rw [reset_source_errors, if_pos hfind2]
    congr 1
    simp only [List.map_map]
    apply map_congr_mem
    intro s _
    simp only [Function.comp]
    by_cases hid : s.id == sid
    · rw [if_pos hid]
      rw [if_pos]
      exact hid
    · rw [if_neg hid, if_neg hid]

/-! ## Session model lemmas -/

theorem session_eta_false {s : UpsertSession} (hp : s.poisoned = false) :
    s = ⟨s.rows, s.pending, false⟩ := by
  obtain ⟨a, b, c⟩ := s
  subst hp
  rfl

theorem stepSession_poisoned {mf req : List String} {uf : String}
    {s : UpsertSession} {it : Item} (h : s.poisoned = true) :
    stepSession mf req uf s it = (s, .errored) := by
  by_cases hmf : uf ∈ mf
  · simp [stepSession, hmf, h]
  · simp [stepSession, hmf]

theorem stepSession_flush_fails {mf req : List String} {uf : String}
    {s : UpsertSession} {it : Item} (hmf : uf ∈ mf)
    (hp : s.poisoned = false)
    (hany : s.pending.any (rowViolates req) = true) :
    stepSession mf req uf s it = ({ s with poisoned := true }, .errored) := by
  simp [stepSession, hmf, hp, hany]

theorem stepSession_insert {mf req : List String} {uf : String}
    {rows pend : List Row} {it : Item} (hmf : uf ∈ mf)
    (hany : pend.any (rowViolates req) = false)
    (hfresh : ∀ r ∈ rows ++ pend, ¬(getVal r.fields uf = getVal it uf))
    (hvalid : ∀ k ∈ keysOf it, k ∈ mf) :
    stepSession mf req uf ⟨rows, pend, false⟩ it =
      (⟨rows ++ pend, [⟨it⟩], false⟩, .inserted) := by
  have hfilter : (rows ++ pend).filter
      (fun r => decide (getVal r.fields uf = getVal it uf)) = [] :=
    List.filter_eq_nil_iff.mpr (by intro r hr; simpa using hfresh r hr)
  simp only [stepSession, if_pos hmf, hany, Bool.false_eq_true, if_false]
  rw [hfilter, if_pos hvalid]

theorem stepSession_insert_invalid {mf req : List String} {uf : String}
    {rows pend : List Row} {it : Item} (hmf : uf ∈ mf)
    (hany : pend.any (rowViolates req) = false)
    (hfresh : ∀ r ∈ rows ++ pend, ¬(getVal r.fields uf = getVal it uf))
    (hbad : ∃ k ∈ keysOf it, k ∉ mf) :
    stepSession mf req uf ⟨rows, pend, false⟩ it =
      (⟨rows ++ pend, [], false⟩, .errored) := by
  have hfilter : (rows ++ pend).filter
      (fun r => decide (getVal r.fields uf = getVal it uf)) = [] :=
    List.filter_eq_nil_iff.mpr (by intro r hr; simpa using hfresh r hr)
  have hinvalid : ¬∀ k ∈ keysOf it, k ∈ mf := by
    obtain ⟨k, hk, hkn⟩ := hbad
    exact fun hall => hkn (hall k hk)
  simp only [stepSession, if_pos hmf, hany, Bool.false_eq_true, if_false]
  rw [hfilter, if_neg hinvalid]

theorem stepSession_update {mf req : List String} {uf : String}
    {rows pend : List Row} {it : Item} {r0 : Row} (hmf : uf ∈ mf)
    (hany : pend.any (rowViolates req) = false)
    (hfilter : (rows ++ pend).filter
      (fun r => decide (getVal r.fields uf = getVal it uf)) = [r0]) :
    stepSession mf req uf ⟨rows, pend, false⟩ it =
      (⟨(rows ++ pend).map (fun r =>
          if getVal r.fields uf = getVal it uf then updateRow mf r it
          else r), [], false⟩, .updated) := by
  simp only [stepSession, if_pos hmf, hany, Bool.false_eq_true, if_false]
  rw [hfilter]

theorem stepSession_multi {mf req : List String} {uf : String}
    {rows pend : List Row} {it : Item} {r0 r1 : Row} {rs : List Row}
    (hmf : uf ∈ mf)
    (hany : pend.any (rowViolates req) = false)
    (hfilter : (rows ++ pend).filter
      (fun r => decide (getVal r.fields uf = getVal it uf)) =
        r0 :: r1 :: rs) :
    stepSession mf req uf ⟨rows, pend, false⟩ it =
      (⟨rows ++ pend, [], false⟩, .errored) := by
  simp only [stepSession, if_pos hmf, hany, Bool.false_eq_true, if_false]
  rw [hfilter]

/-- A rollback-only session, or flush-violating pending rows, can only
end in a raised commit: every later iteration is skipped and
`session.commit()` raises, whatever the remaining records are. -/
theorem commit_stuck (mf req : List String) (uf : String) :
    ∀ (post : List Item) (s : UpsertSession),
      (s.poisoned = true ∨ s.pending.any (rowViolates req) = true) →
      commitSession req (processItemsSession mf req uf s post).1 =
        .error () := by
  intro post
  induction post with
  | nil =>
      intro s h
      rcases h with h | h
      · simp [processItemsSession, commitSession, h]
      · by_cases hp : s.poisoned
        · simp [processItemsSession, commitSession, hp]
        · simp [processItemsSession, commitSession, hp, h]
  | cons it rest ih =>
      intro s h
      rcases h with h | h
      · simp only [processItemsSession, stepSession_poisoned h]
        exact ih s (Or.inl h)
      · by_cases hp : s.poisoned
        · simp only [processItemsSession, stepSession_poisoned hp]
          exact ih s (Or.inl hp)
        · by_cases hmf : uf ∈ mf
          · simp only [processItemsSession,
              stepSession_flush_fails hmf (by simpa using hp) h]
            exact ih _ (Or.inl rfl)
          · have hstep : stepSession mf req uf s it = (s, .errored) := by
              simp [stepSession, hmf]
            simp only [processItemsSession, hstep]
            exact ih s (Or.inr h)

theorem processItemsSession_append (mf req : List String) (uf : String)
    (l1 l2 : List Item) :
    ∀ s : UpsertSession,
      processItemsSession mf req uf s (l1 ++ l2) =
        ((processItemsSession mf req uf
            (processItemsSession mf req uf s l1).1 l2).1,
         (processItemsSession mf req uf s l1).2 ++
           (processItemsSession mf req uf
             (processItemsSession mf req uf s l1).1 l2).2) := by
  induction l1 with
  | nil => intro s; simp [processItemsSession]
  | cons it rest ih =>
      intro s
      rw [List.cons_append]
      simp only [processItemsSession]
      rw [ih]
      simp

/-- On a batch whose model-valid records all satisfy the storage
constraints, the session run never poisons, keeps only
constraint-satisfying pending rows, and agrees with the simple loop: the
rows it would commit and the per-item outcomes are those of
`processItems`. -/
theorem processItemsSession_agrees (mf req : List String) (uf : String) :
    ∀ (items : List Item) (rows pend : List Row),
      (∀ r ∈ pend, rowViolates req r = false) →
      (∀ it ∈ items, (∀ k ∈ keysOf it, k ∈ mf) →
        rowViolates req (⟨it⟩ : Row) = false) →
      (processItemsSession mf req uf ⟨rows, pend, false⟩ items).1.poisoned
          = false ∧
      (∀ r ∈ (processItemsSession mf req uf
          ⟨rows, pend, false⟩ items).1.pending,
        rowViolates req r = false) ∧
      (processItemsSession mf req uf ⟨rows, pend, false⟩ items).1.rows ++
        (processItemsSession mf req uf ⟨rows, pend, false⟩ items).1.pending
          = (processItems mf uf (rows ++ pend) items).1 ∧
      (processItemsSession mf req uf ⟨rows, pend, false⟩ items).2 =
        (processItems mf uf (rows ++ pend) items).2 := by
  intro items
  induction items with
  | nil =>
      intro rows pend h1 _
      exact ⟨rfl, h1, rfl, rfl⟩
  | cons it rest ih =>
      intro rows pend h1 h2
      have hany : pend.any (rowViolates req) = false := by
        rw [List.any_eq_false]
        intro r hr
        simp [h1 r hr]
      have h2rest : ∀ it2 ∈ rest, (∀ k ∈ keysOf it2, k ∈ mf) →
          rowViolates req (⟨it2⟩ : Row) = false :=
        fun it2 hm => h2 it2 (List.mem_cons_of_mem _ hm)
      by_cases hmf : uf ∈ mf
      · rcases hfil : (rows ++ pend).filter
            (fun r => decide (getVal r.fields uf = getVal it uf)) with
          _ | ⟨r0, _ | ⟨r1, rs⟩⟩
        · have hfresh : ∀ r ∈ rows ++ pend,
              ¬(getVal r.fields uf = getVal it uf) := by
            intro r hr
            have := List.filter_eq_nil_iff.mp hfil r hr
            simpa using this
          by_cases hval : ∀ k ∈ keysOf it, k ∈ mf
          · have hstepS := @stepSession_insert mf req uf rows pend it hmf hany hfresh hval
            have hstepR := stepRows_insert hmf hfresh hval
            have hpend2 : ∀ r ∈ [(⟨it⟩ : Row)], rowViolates req r = false := by
              intro r hr
              rcases List.mem_singleton.mp hr with rfl
              exact h2 it (List.mem_cons_self _ _) hval
            obtain ⟨ih1, ih2, ih3, ih4⟩ := ih (rows ++ pend) [⟨it⟩] hpend2 h2rest
            simp only [processItemsSession, processItems, hstepS, hstepR]
            exact ⟨ih1, ih2, ih3, by rw [ih4]⟩
          · have hbad : ∃ k ∈ keysOf it, k ∉ mf := by
              push_neg at hval
              exact hval
            have hstepS := @stepSession_insert_invalid mf req uf rows pend it hmf hany hfresh hbad
            have hstepR := stepRows_errored_of_invalid hfresh hbad
            obtain ⟨ih1, ih2, ih3, ih4⟩ := ih (rows ++ pend) [] (by simp) h2rest
            simp only [List.append_nil] at ih3 ih4
            simp only [processItemsSession, processItems, hstepS, hstepR]
            exact ⟨ih1, ih2, ih3, by rw [ih4]⟩
        · have hstepS := @stepSession_update mf req uf rows pend it r0 hmf hany hfil
          have hstepR := stepRows_update hmf hfil
          obtain ⟨ih1, ih2, ih3, ih4⟩ := ih ((rows ++ pend).map (fun r =>
            if getVal r.fields uf = getVal it uf then updateRow mf r it
            else r)) [] (by simp) h2rest
          simp only [List.append_nil] at ih3 ih4
          simp only [processItemsSession, processItems, hstepS, hstepR]
          exact ⟨ih1, ih2, ih3, by rw [ih4]⟩
        · have hstepS := @stepSession_multi mf req uf rows pend it r0 r1 rs hmf hany hfil
          have hstepR := stepRows_errored_multi hmf hfil
          obtain ⟨ih1, ih2, ih3, ih4⟩ := ih (rows ++ pend) [] (by simp) h2rest
          simp only [List.append_nil] at ih3 ih4
          simp only [processItemsSession, processItems, hstepS, hstepR]
          exact ⟨ih1, ih2, ih3, by rw [ih4]⟩
      · have hstepS : stepSession mf req uf ⟨rows, pend, false⟩ it =
            (⟨rows, pend, false⟩, .errored) := by
          simp [stepSession, hmf]
        have hstepR : stepRows mf uf (rows ++ pend) it =
            (rows ++ pend, .errored) := by
          simp [stepRows, hmf]
        obtain ⟨ih1, ih2, ih3, ih4⟩ := ih rows pend h1 h2rest
        simp only [processItemsSession, processItems, hstepS, hstepR]
        exact ⟨ih1, ih2, ih3, by rw [ih4]⟩

/-- C4 (amended): a failure raised inside one record's own processing —
a validation error from `model(**item)` rejecting a field the model does
not define, or a lookup error — is caught, logged and skipped, and the
remaining records of the batch are processed and committed exactly as if
the failing record were absent (first conjunct). A storage error is NOT
isolated: a record that violates a storage constraint (a NOT NULL column
left `NULL`) passes its own iteration and fails at the next autoflush or
at the final commit; the error poisons the session, every later record is
skipped, the single `session.commit()` raises out of `upsert_items`, and
no record of the batch is persisted (second conjunct). -/
theorem upsert_failure_modes :
    (∀ (mf req : List String) (uf : String) (db : List Row)
        (pre post : List Item) (bad : Item),
      (∀ it ∈ pre, (keysOf it).Nodup) →
      (∀ r ∈ db, ¬(getVal r.fields uf = getVal bad uf)) →
      (∀ it ∈ pre, ¬(getVal it uf = getVal bad uf)) →
      (∃ k ∈ keysOf bad, k ∉ mf) →
      (∀ it ∈ pre ++ bad :: post, (∀ k ∈ keysOf it, k ∈ mf) →
        rowViolates req (⟨it⟩ : Row) = false) →
      upsert_items_session mf req uf db (pre ++ bad :: post) =
        .ok ((processItems mf uf db (pre ++ post)).1,
          countInserted (processItems mf uf db (pre ++ bad :: post)).2) ∧
      persistedRows mf req uf db (pre ++ bad :: post) =
        (processItems mf uf db (pre ++ post)).1) ∧
    (∀ (mf req : List String) (uf : String) (db : List Row)
        (pre post : List Item) (bad : Item),
      uf ∈ mf →
      (∀ it ∈ pre, (keysOf it).Nodup) →
      (∀ r ∈ db, ¬(getVal r.fields uf = getVal bad uf)) →
      (∀ it ∈ pre, ¬(getVal it uf = getVal bad uf)) →
      (∀ k ∈ keysOf bad, k ∈ mf) →
      rowViolates req (⟨bad⟩ : Row) = true →
      (∀ it ∈ pre, (∀ k ∈ keysOf it, k ∈ mf) →
        rowViolates req (⟨it⟩ : Row) = false) →
      upsert_items_session mf req uf db (pre ++ bad :: post) = .error () ∧
      persistedRows mf req uf db (pre ++ bad :: post) = db) := by
  constructor
  · intro mf req uf db pre post bad hnd hdbfresh hprefresh hbadkeys hsafe
    obtain ⟨hp, hpend, hrows, hos⟩ :=
      processItemsSession_agrees mf req uf (pre ++ bad :: post) db []
        (by simp) hsafe
    rw [List.append_nil] at hrows hos
    have hany : (processItemsSession mf req uf ⟨db, [], false⟩
        (pre ++ bad :: post)).1.pending.any (rowViolates req) = false := by
      rw [List.any_eq_false]
      intro r hr
      simp [hpend r hr]
    have hcommit : commitSession req (processItemsSession mf req uf
        ⟨db, [], false⟩ (pre ++ bad :: post)).1 =
        .ok ((processItemsSession mf req uf ⟨db, [], false⟩
          (pre ++ bad :: post)).1.rows ++
          (processItemsSession mf req uf ⟨db, [], false⟩
            (pre ++ bad :: post)).1.pending) := by
      rw [commitSession, if_neg (by simp [hp]), if_neg (by simp [hany])]
    have hiso := partial_failure_isolation mf uf db pre post bad
      hnd hdbfresh hprefresh hbadkeys
    constructor
    · simp only [upsert_items_session, hcommit]
      rw [hrows, hos, hiso.1]
    · simp only [persistedRows, upsert_items_session, hcommit]
      rw [hrows, hiso.1]
  · intro mf req uf db pre post bad hmf hnd hdbfresh hprefresh hvalid
      hviol hsafe
    obtain ⟨hp, hpend, hrows, -⟩ :=
      processItemsSession_agrees mf req uf pre db [] (by simp) hsafe
    rw [List.append_nil] at hrows
    have hany1 : (processItemsSession mf req uf
        ⟨db, [], false⟩ pre).1.pending.any (rowViolates req) = false := by
      rw [List.any_eq_false]
      intro r hr
      simp [hpend r hr]
    have hfreshbad : ∀ r ∈ (processItemsSession mf req uf
          ⟨db, [], false⟩ pre).1.rows ++
        (processItemsSession mf req uf ⟨db, [], false⟩ pre).1.pending,
        ¬(getVal r.fields uf = getVal bad uf) := by
      intro r hr heq
      rw [hrows] at hr
      have hv := processItems_rowKeys mf uf pre db hnd (getVal r.fields uf)
        (List.mem_map.mpr ⟨r, hr, rfl⟩)
      rcases hv with h | ⟨it, hit, hkey⟩
      · rcases List.mem_map.mp h with ⟨r0, hr0, hkey0⟩
        exact hdbfresh r0 hr0 (hkey0.trans heq)
      · exact hprefresh it hit (hkey.symm.trans heq)
    have hs1eta : (processItemsSession mf req uf ⟨db, [], false⟩ pre).1 =
        ⟨(processItemsSession mf req uf ⟨db, [], false⟩ pre).1.rows,
         (processItemsSession mf req uf ⟨db, [], false⟩ pre).1.pending,
         false⟩ := session_eta_false hp
    have hstepbad : stepSession mf req uf
        (processItemsSession mf req uf ⟨db, [], false⟩ pre).1 bad =
        (⟨(processItemsSession mf req uf ⟨db, [], false⟩ pre).1.rows ++
          (processItemsSession mf req uf ⟨db, [], false⟩ pre).1.pending,
          [⟨bad⟩], false⟩, .inserted) := by
      conv_lhs => rw [hs1eta]
      exact stepSession_insert hmf hany1 hfreshbad hvalid
    have hbadpend : ([(⟨bad⟩ : Row)].any (rowViolates req)) = true := by
      simp [hviol]
    have hcommit : commitSession req (processItemsSession mf req uf
        ⟨db, [], false⟩ (pre ++ bad :: post)).1 = .error () := by
      rw [processItemsSession_append]
      simp only [processItemsSession, hstepbad]
      exact commit_stuck mf req uf post _ (Or.inr hbadpend)
    constructor
    · simp only [upsert_items_session, hcommit]
    · simp only [persistedRows, upsert_items_session, hcommit]

/-- C4 counterexample: a 10-record batch whose 5th record has a storage
error — its NOT NULL `name` column is missing, the `IntegrityError`
surfacing when the pending INSERT is autoflushed by the next iteration's
lookup — does not persist the other 9 records: the session becomes
rollback-only, the remaining records are skipped, the final
`session.commit()` raises out of `upsert_items`, and the table is left
without any record of the batch, where the claim demands the failing
record alone be skipped and the other 9 be persisted. -/
theorem upsert_storage_error_counterexample :
    upsert_items_session ["id", "external_id", "name"] ["name"]
      "external_id" []
      [[("external_id", some "k1"), ("name", some "n1")],
       [("external_id", some "k2"), ("name", some "n2")],
       [("external_id", some "k3"), ("name", some "n3")],
       [("external_id", some "k4"), ("name", some "n4")],
       [("external_id", some "k5")],
       [("external_id", some "k6"), ("name", some "n6")],
       [("external_id", some "k7"), ("name", some "n7")],
       [("external_id", some "k8"), ("name", some "n8")],
       [("external_id", some "k9"), ("name", some "n9")],
       [("external_id", some "k10"), ("name", some "n10")]] =
      .error () ∧
    persistedRows ["id", "external_id", "name"] ["name"]
      "external_id" []
      [[("external_id", some "k1"), ("name", some "n1")],
       [("external_id", some "k2"), ("name", some "n2")],
       [("external_id", some "k3"), ("name", some "n3")],
       [("external_id", some "k4"), ("name", some "n4")],
       [("external_id", some "k5")],
       [("external_id", some "k6"), ("name", some "n6")],
       [("external_id", some "k7"), ("name", some "n7")],
       [("external_id", some "k8"), ("name", some "n8")],
       [("external_id", some "k9"), ("name", some "n9")],
       [("external_id", some "k10"), ("name", some "n10")]] = [] := by
  exact ⟨rfl, rfl⟩

/-! ## Witnesses -/

/-- Witness for `upsert_idempotent` on a concrete two-record batch. -/
theorem upsert_idempotent_witness :
    (upsert_items ["id", "external_id", "title"] "external_id" []
      [[("external_id", some "a"), ("title", some "t1")],
       [("external_id", some "b"), ("title", some "t2")]]).2 = 2 :=
  (upsert_idempotent ["id", "external_id", "title"]
    [[("external_id", some "a"), ("title", some "t1")],
     [("external_id", some "b"), ("title", some "t2")]]
    (by decide) (by decide) (by decide) (by decide)).2.2.2.2.2

/-- Witness for `upsert_record_characterization`: a record matching one
stored row takes the update branch. -/
theorem upsert_record_characterization_witness :
    (stepRows ["id", "external_id", "title"] "external_id"
      [⟨[("external_id", some "x"), ("title", some "old")]⟩]
      [("external_id", some "x"), ("title", some "new")]).2 = .updated :=
  ((upsert_record_characterization ["id", "external_id", "title"]
      [⟨[("external_id", some "x"), ("title", some "old")]⟩]
      [("external_id", some "x"), ("title", some "new")]
      (by decide) (by decide) (by decide)).2
    ⟨[("external_id", some "x"), ("title", some "old")]⟩ (by decide)).1

/-- Witness for `fetch_url_retry_spec`: three consecutive timeouts make
exactly three calls with waits of 2 and 4 seconds. -/
theorem fetch_url_retry_spec_witness :
    (fetch_url (fun _ => NetOutcome.timeout)).1 = 3 ∧
    (fetch_url (fun _ => NetOutcome.timeout)).2.1 = [2, 4] :=
  have h := (fetch_url_retry_spec (fun _ => NetOutcome.timeout)).2.2.2.1
    ⟨rfl, rfl, rfl⟩
  ⟨h.1, h.2.1⟩

/-- Witness for `partial_failure_isolation`: a ten-record batch whose
fifth record carries a field the model does not define persists the other
nine records exactly as if the bad record were absent. -/
theorem partial_failure_isolation_witness :
    (processItems ["id", "external_id", "title"] "external_id" []
      ([[("external_id", some "k1"), ("title", some "t1")],
        [("external_id", some "k2"), ("title", some "t2")],
        [("external_id", some "k3"), ("title", some "t3")],
        [("external_id", some "k4"), ("title", some "t4")]] ++
       [("external_id", some "bad"), ("bogus", some "z")] ::
       [[("external_id", some "k5"), ("title", some "t5")],
        [("external_id", some "k6"), ("title", some "t6")],
        [("external_id", some "k7"), ("title", some "t7")],
        [("external_id", some "k8"), ("title", some "t8")],
        [("external_id", some "k9"), ("title", some "t9")]])).1 =
      (processItems ["id", "external_id", "title"] "external_id" []
        ([[("external_id", some "k1"), ("title", some "t1")],
          [("external_id", some "k2"), ("title", some "t2")],
          [("external_id", some "k3"), ("title", some "t3")],
          [("external_id", some "k4"), ("title", some "t4")]] ++
         [[("external_id", some "k5"), ("title", some "t5")],
          [("external_id", some "k6"), ("title", some "t6")],
          [("external_id", some "k7"), ("title", some "t7")],
          [("external_id", some "k8"), ("title", some "t8")],
          [("external_id", some "k9"), ("title", some "t9")]])).1 :=
  (partial_failure_isolation ["id", "external_id", "title"] "external_id" []
    [[("external_id", some "k1"), ("title", some "t1")],
     [("external_id", some "k2"), ("title", some "t2")],
     [("external_id", some "k3"), ("title", some "t3")],
     [("external_id", some "k4"), ("title", some "t4")]]
    [[("external_id", some "k5"), ("title", some "t5")],
     [("external_id", some "k6"), ("title", some "t6")],
     [("external_id", some "k7"), ("title", some "t7")],
     [("external_id", some "k8"), ("title", some "t8")],
     [("external_id", some "k9"), ("title", some "t9")]]
    [("external_id", some "bad"), ("bogus", some "z")]
    (by decide) (by decide) (by decide) (by decide)).1

/-- Witness for `upsert_failure_modes`: a batch around a record with an
undefined field commits the other records, and a batch around a record
missing its NOT NULL `name` column raises without committing anything. -/
theorem upsert_failure_modes_witness :
    upsert_items_session ["id", "external_id", "name"] ["name"]
      "external_id" []
      ([[("external_id", some "a1"), ("name", some "m1")]] ++
       [("external_id", some "vbad"), ("bogus", some "z")] ::
       [[("external_id", some "a2"), ("name", some "m2")]]) =
      .ok ((processItems ["id", "external_id", "name"] "external_id" []
        ([[("external_id", some "a1"), ("name", some "m1")]] ++
         [[("external_id", some "a2"), ("name", some "m2")]])).1,
        countInserted (processItems ["id", "external_id", "name"]
          "external_id" []
          ([[("external_id", some "a1"), ("name", some "m1")]] ++
           [("external_id", some "vbad"), ("bogus", some "z")] ::
           [[("external_id", some "a2"), ("name", some "m2")]])).2) ∧
    upsert_items_session ["id", "external_id", "name"] ["name"]
      "external_id" []
      ([[("external_id", some "b1"), ("name", some "p1")]] ++
       [("external_id", some "sbad")] ::
       [[("external_id", some "b2"), ("name", some "p2")]]) = .error () := by
  constructor
  · exact (upsert_failure_modes.1 ["id", "external_id", "name"] ["name"]
      "external_id" []
      [[("external_id", some "a1"), ("name", some "m1")]]
      [[("external_id", some "a2"), ("name", some "m2")]]
      [("external_id", some "vbad"), ("bogus", some "z")]
      (by decide) (by decide) (by decide) (by decide) (by decide)).1
  · exact (upsert_failure_modes.2 ["id", "external_id", "name"] ["name"]
      "external_id" []
      [[("external_id", some "b1"), ("name", some "p1")]]
      [[("external_id", some "b2"), ("name", some "p2")]]
      [("external_id", some "sbad")]
      (by decide) (by decide) (by decide) (by decide) (by decide)
      (by decide) (by decide)).1

/-- Witness for `intra_batch_dedup`: two records sharing `external_id`
resolve to one insert followed by one in-place update, leaving exactly
one row with that key. -/
theorem intra_batch_dedup_witness :
    (processItems ["id", "external_id", "title"] "external_id" []
      [[("external_id", some "x"), ("title", some "first")],
       [("external_id", some "x"), ("title", some "second")]]).2 =
      [.inserted, .updated] ∧
    ((processItems ["id", "external_id", "title"] "external_id" []
      [[("external_id", some "x"), ("title", some "first")],
       [("external_id", some "x"), ("title", some "second")]]).1.filter
        (fun r => decide (getVal r.fields "external_id" =
          getVal [("external_id", some "x"), ("title", some "second")]
            "external_id"))).length = 1 := by
  obtain ⟨row, h1, h2, h3, h4⟩ :=
    intra_batch_dedup ["id", "external_id", "title"] []
      [("external_id", some "x"), ("title", some "first")]
      [("external_id", some "x"), ("title", some "second")]
      (by decide) (by decide) (by decide) (by decide) (by decide)
      (by decide) (by decide) (by decide)
  exact ⟨h4, h3⟩

/-- Witness for `reset_source_errors_spec` on a one-source registry. -/
theorem reset_source_errors_witness :
    (reset_source_errors
      [⟨1, "news", "news", "rss", "u", true, false, false, 60,
        some 5, none, some "boom", 3, 7⟩] 1).1 =
      .ok ("Errors reset", 1) ∧
    reset_source_errors
      (reset_source_errors
        [⟨1, "news", "news", "rss", "u", true, false, false, 60,
          some 5, none, some "boom", 3, 7⟩] 1).2 1 =
      ((reset_source_errors
        [⟨1, "news", "news", "rss", "u", true, false, false, 60,
          some 5, none, some "boom", 3, 7⟩] 1).1,
       (reset_source_errors
        [⟨1, "news", "news", "rss", "u", true, false, false, 60,
          some 5, none, some "boom", 3, 7⟩] 1).2) := by
  have h := reset_source_errors_spec
    [⟨1, "news", "news", "rss", "u", true, false, false, 60,
      some 5, none, some "boom", 3, 7⟩] 1 (by decide)
  exact ⟨h.1, h.2.2.2⟩

end Caafw
